/-
  Verification of the CTC beam-search decoder (yhwang/ctc-beam-search,
  src/ctc_beam_search.ts) against its natural-language specification.

  The TypeScript source is shallowly embedded:
  * JavaScript floating-point numbers are idealized as real numbers.
  * JS objects used as dictionaries become insertion-ordered association
    lists (`objInsert` preserves first-insertion key order and overwrites
    the value, exactly like JS property assignment).
  * A `BeamEntry` becomes an inductive value whose `parent` field stores a
    snapshot of the parent.  In the source the field is a reference, but
    after a time step finishes no code mutates the previous generation of
    entries, so values are an exact model.  The `_string` memoization cache
    is dropped: `convertToStr` is pure, caching is unobservable.
  * `Array.prototype.sort` with comparator `(a, b) => b.pTotal - a.pTotal`
    is modelled by a deterministic insertion sort that is non-increasing in
    `pTotal`; JS guarantees a sorted result for this consistent comparator,
    and no claim depends on the order of ties.
  * The JS statement `rev.length = this._size` either truncates the array
    or extends it with holes; the model returns `List (Option BeamEntry)`
    where a hole is `none` (`setLengthJS`).  `Array.prototype.forEach`
    skips holes, which is modelled by `List.reduceOption`.
  * `row[i]` for an in-range index is `List.getD row i 0`.  Out-of-range
    reads (which produce `undefined`/NaN in JS) never occur in the
    verified executions; the default value is irrelevant to every theorem.
-/
import Mathlib

namespace CTC

open Classical in
/-- JS object property read: the value stored under key `k`, if present. -/
def objGet {α β : Type} [DecidableEq α] (m : List (α × β)) (k : α) : Option β :=
  (m.find? (fun p => decide (p.1 = k))).map (fun p => p.2)

/-- JS object property write: overwrite in place if the key exists
(keeping first-insertion order), otherwise append. -/
def objInsert {α β : Type} [DecidableEq α] (m : List (α × β)) (k : α) (v : β) :
    List (α × β) :=
  if (m.find? (fun p => decide (p.1 = k))).isSome then
    m.map (fun p => if p.1 = k then (k, v) else p)
  else
    m ++ [(k, v)]

/-- The `Vocabulary` class: char-to-index map, its inverse, and the CTC
blank index. -/
structure Vocabulary where
  charToIndex : List (String × ℕ)
  indexToChar : List (ℕ × String)
  blankIndex : ℕ
  deriving DecidableEq, Repr

/-- The `Vocabulary` constructor: copies the entries of the supplied
mapping in iteration order into both tables and stores `blankIndex`.
No validation of any kind is performed by the source. -/
def mkVocabulary (charToIndex : List (String × ℕ)) (blankIndex : ℕ) : Vocabulary :=
  { charToIndex :=
      charToIndex.foldl (fun m p => objInsert m p.1 p.2) []
    indexToChar :=
      charToIndex.foldl (fun m p => objInsert m p.2 p.1) []
    blankIndex := blankIndex }

/-- `logSumExp` from the source, including the special handling of the
zero sentinel ("no probability mass recorded yet").  `Math.log1p x` is
`Real.log (1 + x)`. -/
noncomputable def logSumExp (log1 log2 : ℝ) : ℝ :=
  if log1 = 0 then log2
  else if log2 = 0 then log1
  else if log2 < log1 then log1 + Real.log (1 + Real.exp (log2 - log1))
  else log2 + Real.log (1 + Real.exp (log1 - log2))

open Classical in
/-- The `BeamEntry` class.  Field order follows the source declaration:
`seq`, `pTotal`, `pBlank`, `pNonBlank`, `_last`, `_parent`. -/
inductive BeamEntry : Type where
  | mk (seq : List ℕ) (pTotal pBlank pNonBlank : ℝ) (last : ℤ)
       (parent : Option BeamEntry)

def BeamEntry.seq : BeamEntry → List ℕ
  | .mk s _ _ _ _ _ => s

def BeamEntry.pTotal : BeamEntry → ℝ
  | .mk _ t _ _ _ _ => t

def BeamEntry.pBlank : BeamEntry → ℝ
  | .mk _ _ b _ _ _ => b

def BeamEntry.pNonBlank : BeamEntry → ℝ
  | .mk _ _ _ n _ _ => n

def BeamEntry.last : BeamEntry → ℤ
  | .mk _ _ _ _ l _ => l

def BeamEntry.parent : BeamEntry → Option BeamEntry
  | .mk _ _ _ _ _ p => p

@[simp] theorem BeamEntry.seq_mk (s t b n l p) :
    (BeamEntry.mk s t b n l p).seq = s := rfl

@[simp] theorem BeamEntry.pTotal_mk (s t b n l p) :
    (BeamEntry.mk s t b n l p).pTotal = t := rfl

@[simp] theorem BeamEntry.pBlank_mk (s t b n l p) :
    (BeamEntry.mk s t b n l p).pBlank = b := rfl

@[simp] theorem BeamEntry.pNonBlank_mk (s t b n l p) :
    (BeamEntry.mk s t b n l p).pNonBlank = n := rfl

@[simp] theorem BeamEntry.last_mk (s t b n l p) :
    (BeamEntry.mk s t b n l p).last = l := rfl

@[simp] theorem BeamEntry.parent_mk (s t b n l p) :
    (BeamEntry.mk s t b n l p).parent = p := rfl

/-- `_calculateLast`: the final element of `seq`, or the initial `-1`
when `seq` is empty. -/
def calcLast (seq : List ℕ) : ℤ :=
  match seq.getLast? with
  | some x => (x : ℤ)
  | none => -1

/-- The `_last` computed by the `BeamEntry` constructor.  JS tests
`if (last)`, which is false for the *falsy* values `undefined` and `0`;
in those cases `_calculateLast` runs instead. -/
def jsLast (seq : List ℕ) (last : Option ℤ) : ℤ :=
  match last with
  | some l => if l = 0 then calcLast seq else l
  | none => calcLast seq

/-- `new BeamEntry(seq, last?)`: probabilities start at the zero
sentinel, `_last` follows `jsLast`, `_parent` is unset. -/
def mkBeamEntry (seq : List ℕ) (last : Option ℤ) : BeamEntry :=
  BeamEntry.mk seq 0 0 0 (jsLast seq last) none

/-- `convertToStr`: map the index sequence through `indexToChar` and
concatenate.  A missing index renders as the empty string, exactly as
`Array.prototype.join` renders `undefined`. -/
def BeamEntry.convertToStr (e : BeamEntry) (vocab : Vocabulary) : String :=
  String.join (e.seq.map (fun i => (objGet vocab.indexToChar i).getD ""))

/-- `BeamEntry.copy`: the successor whose decoded string is unchanged.
Returns `none` for an entry with no last label.  The new `pBlank` uses
`pTotal` when the parent ends in the same label, otherwise `pNonBlank`. -/
noncomputable def BeamEntry.copy (e : BeamEntry) (row : List ℝ) (blank : ℝ) :
    Option BeamEntry :=
  if e.last = -1 then none
  else
    let pBlankNew :=
      match e.parent with
      | some p => if p.last = e.last then e.pTotal + blank else e.pNonBlank + blank
      | none => e.pNonBlank + blank
    let pNonBlankNew := e.pNonBlank + row.getD e.last.toNat 0
    some (BeamEntry.mk e.seq (logSumExp pNonBlankNew pBlankNew)
      pBlankNew pNonBlankNew (jsLast e.seq (some e.last)) (some e))

open Classical in
/-- `BeamEntry.extend`: the successor appending char `index`.  Case 1 is
the hard-wired leading-space merge (`_last === -1 && index === 0`);
case 2 rejects a repeat with no blank-ending mass; case 3 is a repeat
after blank; case 4 is an ordinary extension. -/
noncomputable def BeamEntry.extend (e : BeamEntry) (index : ℕ) (prob : ℝ)
    (pBlank : ℝ) : Option BeamEntry :=
  if e.last = -1 ∧ index = 0 then
    some (BeamEntry.mk [] (e.pTotal + logSumExp prob pBlank) 0 0
      (jsLast [] (some (-1))) (some e))
  else if (index : ℤ) = e.last then
    if e.pBlank = 0 then none
    else
      some (BeamEntry.mk (e.seq ++ [index]) (e.pBlank + prob) 0 (e.pBlank + prob)
        (jsLast (e.seq ++ [index]) (some (index : ℤ))) (some e))
  else
    some (BeamEntry.mk (e.seq ++ [index]) (e.pTotal + prob) 0 (e.pTotal + prob)
      (jsLast (e.seq ++ [index]) (some (index : ℤ))) (some e))

open Classical in
/-- The in-place probability merge performed by `BeamList.add` when two
entries share a label: each of the three probabilities is merged with
`logSumExp(incoming, existing)`; `seq`, `_last`, `_parent` are kept. -/
noncomputable def mergeEntry (existing beam : BeamEntry) : BeamEntry :=
  BeamEntry.mk existing.seq (logSumExp beam.pTotal existing.pTotal)
    (logSumExp beam.pBlank existing.pBlank)
    (logSumExp beam.pNonBlank existing.pNonBlank) existing.last existing.parent

/-- The `BeamList` class: beam width and the candidate list.  The
`_beams` dictionary of the source is keyed by decoded label; it is
recovered here by searching `beamList` for the label, which agrees with
the dictionary because `add` never inserts a duplicate label. -/
structure BeamList where
  size : ℕ
  beamList : List BeamEntry

/-- `BeamList.add`: skip `undefined`; merge probabilities in place when
the label already exists; otherwise append. -/
noncomputable def BeamList.add (pool : BeamList) (beam : Option BeamEntry)
    (vocab : Vocabulary) : BeamList :=
  match beam with
  | none => pool
  | some b =>
    let label := b.convertToStr vocab
    if (pool.beamList.find? (fun x => x.convertToStr vocab == label)).isSome then
      BeamList.mk pool.size
        (pool.beamList.map
          (fun x => if x.convertToStr vocab == label then mergeEntry x b else x))
    else
      BeamList.mk pool.size (pool.beamList ++ [b])

/-- Insertion step of the model of `Array.prototype.sort` with comparator
`(a, b) => b.pTotal - a.pTotal`. -/
noncomputable def insertDesc (e : BeamEntry) : List BeamEntry → List BeamEntry
  | [] => [e]
  | x :: xs => if x.pTotal ≤ e.pTotal then e :: x :: xs else x :: insertDesc e xs

/-- Model of the in-place JS sort: a deterministic sort that is
non-increasing in `pTotal`. -/
noncomputable def sortDesc : List BeamEntry → List BeamEntry
  | [] => []
  | x :: xs => insertDesc x (sortDesc xs)

/-- The JS statement `arr.length = n`: truncate to `n` elements, or pad
with holes (`none`) up to length `n`. -/
def setLengthJS {α : Type} (l : List α) (n : ℕ) : List (Option α) :=
  (l.map some ++ List.replicate (n - l.length) none).take n

/-- `BeamList.sort`: sort the candidates from high `pTotal` to low, then
force the array length to the beam width. -/
noncomputable def BeamList.sort (pool : BeamList) : List (Option BeamEntry) :=
  setLengthJS (sortDesc pool.beamList) pool.size

/-- The char indices the `search` loop feeds to `extend` for a row:
`for (let cIndex = 0, len = row.length - 1; cIndex < len; cIndex++)`.
Every index except the *last* one — not every non-blank index. -/
def extendIndices (row : List ℝ) : List ℕ :=
  List.range (row.length - 1)

/-- One time step of `CTCBeamSearch.search`: a fresh `BeamList`, the
`copy` successor and all `extend` successors of every current beam. -/
noncomputable def searchStep (vocab : Vocabulary) (width : ℕ)
    (beams : List BeamEntry) (row : List ℝ) : BeamList :=
  beams.foldl
    (fun pool beam =>
      let pool1 := pool.add (beam.copy row (row.getD vocab.blankIndex 0)) vocab
      (extendIndices row).foldl
        (fun p cIndex =>
          p.add (beam.extend cIndex (row.getD cIndex 0) (row.getD vocab.blankIndex 0))
            vocab)
        pool1)
    (BeamList.mk width [])

/-- One iteration of the `forEach` over rows: build the pool from the
present (non-hole) beams, then sort/truncate it into the next beam
array. -/
noncomputable def searchIter (vocab : Vocabulary) (width : ℕ)
    (beams : List (Option BeamEntry)) (row : List ℝ) : List (Option BeamEntry) :=
  (searchStep vocab width beams.reduceOption row).sort

/-- The root `new BeamEntry([])` created at the start of every search. -/
def rootEntry : BeamEntry := mkBeamEntry [] none

/-- `CTCBeamSearch.search`: walk the rows, carrying the beam array. -/
noncomputable def search (vocab : Vocabulary) (logProbs : List (List ℝ))
    (width : ℕ) : List (Option BeamEntry) :=
  logProbs.foldl (searchIter vocab width) [some rootEntry]


/-! ### Arithmetic facts about `logSumExp` -/

theorem logSumExp_zero_left (x : ℝ) : logSumExp 0 x = x := by
  simp [logSumExp]

theorem logSumExp_zero_right (x : ℝ) : logSumExp x 0 = x := by
  by_cases h : x = 0 <;> simp [logSumExp, h]

theorem logAux (x y : ℝ) :
    x + Real.log (1 + Real.exp (y - x)) = Real.log (Real.exp x + Real.exp y) := by
  have h1 : Real.exp x + Real.exp y = Real.exp x * (1 + Real.exp (y - x)) := by
    rw [Real.exp_sub]
    field_simp
  rw [h1, Real.log_mul (Real.exp_ne_zero x) (by positivity), Real.log_exp]

theorem logSumExp_eq (x y : ℝ) (hx : x ≠ 0) (hy : y ≠ 0) :
    logSumExp x y = Real.log (Real.exp x + Real.exp y) := by
  rw [logSumExp, if_neg hx, if_neg hy]
  by_cases h : y < x
  · rw [if_pos h, logAux]
  · rw [if_neg h, logAux, add_comm (Real.exp y)]

theorem logSumExp_comm (x y : ℝ) : logSumExp x y = logSumExp y x := by
  by_cases hx : x = 0
  · by_cases hy : y = 0 <;> simp [hx, hy, logSumExp_zero_left, logSumExp_zero_right]
  · by_cases hy : y = 0
    · simp [hx, hy, logSumExp_zero_left, logSumExp_zero_right]
    · rw [logSumExp_eq x y hx hy, logSumExp_eq y x hy hx, add_comm]

theorem exp_logSumExp (x y : ℝ) (hx : x ≠ 0) (hy : y ≠ 0) :
    Real.exp (logSumExp x y) = Real.exp x + Real.exp y := by
  rw [logSumExp_eq x y hx hy, Real.exp_log (by positivity)]

theorem left_le_logSumExp (x y : ℝ) (hx : x ≠ 0) (hy : y ≠ 0) :
    x ≤ logSumExp x y := by
  rw [logSumExp_eq x y hx hy]
  have h : Real.exp x ≤ Real.exp x + Real.exp y := by
    have := Real.exp_pos y; linarith
  calc x = Real.log (Real.exp x) := (Real.log_exp x).symm
    _ ≤ Real.log (Real.exp x + Real.exp y) :=
        Real.log_le_log (Real.exp_pos x) h

theorem right_le_logSumExp (x y : ℝ) (hx : x ≠ 0) (hy : y ≠ 0) :
    y ≤ logSumExp x y := by
  rw [logSumExp_comm]
  exact left_le_logSumExp y x hy hx

theorem logSumExp_le_add_exp (x y : ℝ) (hx : x ≠ 0) (hy : y ≠ 0) :
    logSumExp x y ≤ y + Real.exp (x - y) := by
  rw [logSumExp_eq x y hx hy, add_comm (Real.exp x), ← logAux y x]
  have h : Real.log (1 + Real.exp (x - y)) ≤ Real.exp (x - y) := by
    have h2 := Real.log_le_sub_one_of_pos
      (show (0:ℝ) < 1 + Real.exp (x - y) by positivity)
    linarith
  linarith

theorem exp_neg_le (t : ℝ) (ht : 0 ≤ t) : Real.exp (-t) ≤ 1 / (1 + t) := by
  have h1 : t + 1 ≤ Real.exp t := Real.add_one_le_exp t
  have h2 : (0:ℝ) < 1 + t := by linarith
  rw [Real.exp_neg]
  rw [inv_eq_one_div]
  apply one_div_le_one_div_of_le h2
  linarith

/-! ### Properties of the sort / length-forcing used by `BeamList.sort` -/

theorem insertDesc_length (e : BeamEntry) (l : List BeamEntry) :
    (insertDesc e l).length = l.length + 1 := by
  induction l with
  | nil => simp [insertDesc]
  | cons x xs ih =>
    rw [insertDesc]
    by_cases h : x.pTotal ≤ e.pTotal
    · rw [if_pos h]; simp
    · rw [if_neg h]; simp [ih]

theorem sortDesc_length (l : List BeamEntry) : (sortDesc l).length = l.length := by
  induction l with
  | nil => rfl
  | cons x xs ih => rw [sortDesc, insertDesc_length, ih]; rfl

theorem mem_insertDesc {y : BeamEntry} (e : BeamEntry) (l : List BeamEntry) :
    y ∈ insertDesc e l → y = e ∨ y ∈ l := by
  induction l with
  | nil => simp [insertDesc]
  | cons x xs ih =>
    rw [insertDesc]
    by_cases h : x.pTotal ≤ e.pTotal
    · rw [if_pos h]; intro hy
      rcases List.mem_cons.mp hy with h1 | h1
      · exact Or.inl h1
      · exact Or.inr h1
    · rw [if_neg h]; intro hy
      rcases List.mem_cons.mp hy with h1 | h1
      · exact Or.inr (by simp [h1])
      · rcases ih h1 with h2 | h2
        · exact Or.inl h2
        · exact Or.inr (List.mem_cons_of_mem _ h2)

theorem mem_sortDesc {y : BeamEntry} (l : List BeamEntry) :
    y ∈ sortDesc l → y ∈ l := by
  induction l with
  | nil => simp [sortDesc]
  | cons x xs ih =>
    rw [sortDesc]
    intro hy
    rcases mem_insertDesc x (sortDesc xs) hy with h1 | h1
    · simp [h1]
    · exact List.mem_cons_of_mem _ (ih h1)

theorem insertDesc_pairwise (e : BeamEntry) (l : List BeamEntry)
    (hl : l.Pairwise (fun a b => b.pTotal ≤ a.pTotal)) :
    (insertDesc e l).Pairwise (fun a b => b.pTotal ≤ a.pTotal) := by
  induction l with
  | nil => simp [insertDesc]
  | cons x xs ih =>
    rw [insertDesc]
    rcases List.pairwise_cons.mp hl with ⟨hx, hxs⟩
    by_cases h : x.pTotal ≤ e.pTotal
    · rw [if_pos h]
      refine List.pairwise_cons.mpr ⟨?_, hl⟩
      intro y hy
      rcases List.mem_cons.mp hy with h1 | h1
      · rw [h1]; exact h
      · exact le_trans (hx y h1) h
    · rw [if_neg h]
      refine List.pairwise_cons.mpr ⟨?_, ih hxs⟩
      intro y hy
      rcases mem_insertDesc e xs hy with h1 | h1
      · rw [h1]; exact le_of_not_le h
      · exact hx y h1

theorem sortDesc_pairwise (l : List BeamEntry) :
    (sortDesc l).Pairwise (fun a b => b.pTotal ≤ a.pTotal) := by
  induction l with
  | nil => simp [sortDesc]
  | cons x xs ih => exact insertDesc_pairwise x (sortDesc xs) ih

theorem setLengthJS_length {α : Type} (l : List α) (n : ℕ) :
    (setLengthJS l n).length = n := by
  simp only [setLengthJS, List.length_take, List.length_append, List.length_map,
    List.length_replicate]
  omega

theorem reduceOption_replicate_none {α : Type} (n : ℕ) :
    (List.replicate n (none : Option α)).reduceOption = [] := by
  induction n with
  | zero => rfl
  | succ k ih => simp [List.replicate_succ, List.reduceOption_cons_of_none, ih]

theorem reduceOption_map_some {α : Type} (l : List α) :
    (l.map some).reduceOption = l := by
  induction l with
  | nil => rfl
  | cons x xs ih => simp [List.reduceOption_cons_of_some, ih]

theorem reduceOption_setLengthJS {α : Type} (l : List α) (n : ℕ) :
    (setLengthJS l n).reduceOption = l.take n := by
  rw [setLengthJS, List.take_append_eq_append_take, List.take_replicate,
    ← List.map_take, List.reduceOption_append, reduceOption_map_some,
    reduceOption_replicate_none, List.append_nil]

/-- The vocabulary used for the concrete end-to-end runs: the three
symbols `a`, `b` and the blank `-`, with the blank at the final index as
the search loop requires. -/
def v3 : Vocabulary := mkVocabulary [("b", 0), ("a", 1), ("-", 2)] 2

/-- C7: `logSumExp` is commutative, and the zero sentinel is its
identity element: `logSumExp(sentinel, x) = x` for every `x`. -/
theorem C7_logSumExp_comm_and_identity :
    (∀ a b : ℝ, logSumExp a b = logSumExp b a) ∧
    (∀ x : ℝ, logSumExp 0 x = x) :=
  ⟨logSumExp_comm, logSumExp_zero_left⟩

/-- C1 counterexample: a pool with capacity 2 holding a single
candidate.  `sort` returns an array of length 2 (the second slot a
hole), not of length `min 2 1 = 1` as the claim states. -/
theorem C1_finalize_length_cex :
    ((BeamList.mk 2 []).add (some rootEntry) v3).sort = [some rootEntry, none] ∧
    ((BeamList.mk 2 []).add (some rootEntry) v3).beamList.length = 1 ∧
    ((BeamList.mk 2 []).add (some rootEntry) v3).sort.length ≠ min 2 1 := by
  refine ⟨rfl, rfl, ?_⟩
  have h : ((BeamList.mk 2 []).add (some rootEntry) v3).sort
      = [some rootEntry, none] := rfl
  rw [h]
  decide

/-- C1 as amended: `sort` always returns an array of length exactly
`capacity` — truncated when more candidates exist, padded with holes
when fewer.  The present entries are sorted non-increasing by `pTotal`
and number `min(capacity, number of distinct labels)`. -/
theorem C1_finalize_sorted_and_length (pool : BeamList) :
    pool.sort.length = pool.size ∧
    pool.sort.reduceOption.Pairwise (fun a b => b.pTotal ≤ a.pTotal) ∧
    pool.sort.reduceOption.length = min pool.size pool.beamList.length := by
  refine ⟨setLengthJS_length _ _, ?_, ?_⟩
  · rw [BeamList.sort, reduceOption_setLengthJS]
    exact (sortDesc_pairwise pool.beamList).sublist (List.take_sublist _ _)
  · rw [BeamList.sort, reduceOption_setLengthJS, List.length_take, sortDesc_length]

/-! ### The JS-object model used by the `Vocabulary` constructor -/

theorem find?_append_of_none {α : Type} (l1 l2 : List α) (p : α → Bool)
    (h : l1.find? p = none) : (l1 ++ l2).find? p = l2.find? p := by
  induction l1 with
  | nil => simp
  | cons a l1 ih =>
    rw [List.cons_append]
    cases hpa : p a with
    | true => rw [List.find?_cons_of_pos _ hpa] at h; cases h
    | false =>
      rw [List.find?_cons_of_neg _ (by simp [hpa])] at h
      rw [List.find?_cons_of_neg _ (by simp [hpa])]
      exact ih h

theorem find?_append_of_some {α : Type} {l1 : List α} {p : α → Bool} {a : α}
    (l2 : List α) (h : l1.find? p = some a) : (l1 ++ l2).find? p = some a := by
  induction l1 with
  | nil => cases h
  | cons b l1 ih =>
    rw [List.cons_append]
    cases hpb : p b with
    | true =>
      rw [List.find?_cons_of_pos _ hpb] at h
      rw [List.find?_cons_of_pos _ hpb]
      exact h
    | false =>
      rw [List.find?_cons_of_neg _ (by simp [hpb])] at h
      rw [List.find?_cons_of_neg _ (by simp [hpb])]
      exact ih h

theorem objGet_objInsert {α β : Type} [DecidableEq α]
    (m : List (α × β)) (k k' : α) (v : β) :
    objGet (objInsert m k v) k' = if k' = k then some v else objGet m k' := by
  rw [objInsert]
  by_cases hp : (m.find? (fun p => decide (p.1 = k))).isSome
  · rw [if_pos hp, objGet, List.find?_map]
    have hpred : ((fun p : α × β => decide (p.1 = k')) ∘
        fun p => if p.1 = k then (k, v) else p)
        = fun (p : α × β) => decide (p.1 = k') := by
      funext p
      by_cases h : p.1 = k <;> simp [h]
    rw [hpred]
    by_cases hk : k' = k
    · subst hk
      obtain ⟨p0, hp0⟩ := Option.isSome_iff_exists.mp hp
      have hkey : p0.1 = k' := by simpa using List.find?_some hp0
      rw [if_pos rfl, hp0]
      simp [hkey]
    · rw [if_neg hk, objGet]
      cases hf : m.find? (fun p : α × β => decide (p.1 = k')) with
      | none => simp
      | some p0 =>
        have hkey : p0.1 = k' := by simpa using List.find?_some hf
        have hne : ¬ p0.1 = k := by rw [hkey]; exact hk
        simp [hne]
  · rw [if_neg hp]
    have hnone : m.find? (fun p : α × β => decide (p.1 = k)) = none :=
      Option.not_isSome_iff_eq_none.mp hp
    by_cases hk : k' = k
    · subst hk
      rw [if_pos rfl, objGet, find?_append_of_none _ _ _ hnone]
      simp
    · rw [if_neg hk, objGet, objGet]
      cases hf : m.find? (fun p : α × β => decide (p.1 = k')) with
      | none =>
        rw [find?_append_of_none _ _ _ hf]
        simp [Ne.symm hk]
      | some p0 =>
        rw [find?_append_of_some _ hf]

theorem objGet_foldl {α β : Type} [DecidableEq α] :
    ∀ (entries m : List (α × β)) (k : α),
    objGet (entries.foldl (fun acc p => objInsert acc p.1 p.2) m) k
      = match entries.reverse.find? (fun p => decide (p.1 = k)) with
        | some p => some p.2
        | none => objGet m k := by
  intro entries
  induction entries with
  | nil => intro m k; simp
  | cons q rest ih =>
    intro m k
    rw [List.foldl_cons, ih, List.reverse_cons]
    cases hf : rest.reverse.find? (fun p : α × β => decide (p.1 = k)) with
    | some p =>
      rw [find?_append_of_some _ hf]
    | none =>
      rw [find?_append_of_none _ _ _ hf]
      by_cases hk : q.1 = k
      · rw [List.find?_cons_of_pos _ (by simpa using hk), objGet_objInsert,
          if_pos (hk.symm)]
      · rw [List.find?_cons_of_neg _ (by simpa using hk), objGet_objInsert,
          if_neg (fun h => hk h.symm)]
        simp

/-- C5 counterexample: a non-injective mapping (`a` and `b` both at
index 0) together with an out-of-range blank index 5.  Construction
succeeds — no `InvalidVocabulary` failure exists in the source — and the
later symbol silently overwrites the earlier one in `indexToChar`. -/
theorem C5_vocabulary_no_validation_cex :
    mkVocabulary [("a", 0), ("b", 0)] 5
      = Vocabulary.mk [("a", 0), ("b", 0)] [(0, "b")] 5 := by
  rfl

/-- C5 as amended: the `Vocabulary` constructor performs no validation
and always succeeds.  `blankIndex` is stored unchecked, and lookups are
plain reads of the tables built at construction: the value under a key
is the one from the *last* entry with that key (later entries overwrite
earlier ones), with no injectivity requirement. -/
theorem C5_vocabulary_constructor_total (cti : List (String × ℕ)) (blank : ℕ)
    (i : ℕ) (s : String) :
    (mkVocabulary cti blank).blankIndex = blank ∧
    objGet (mkVocabulary cti blank).charToIndex s
      = (cti.reverse.find? (fun p => decide (p.1 = s))).map (fun p => p.2) ∧
    objGet (mkVocabulary cti blank).indexToChar i
      = (cti.reverse.find? (fun p => decide (p.2 = i))).map (fun p => p.1) := by
  refine ⟨rfl, ?_, ?_⟩
  · show objGet (cti.foldl (fun m p => objInsert m p.1 p.2) []) s = _
    rw [objGet_foldl]
    cases hf : cti.reverse.find? (fun p : String × ℕ => decide (p.1 = s)) with
    | some p => rfl
    | none => rfl
  · show objGet (cti.foldl (fun m p => objInsert m p.2 p.1) []) i = _
    have hmap : cti.foldl (fun m p => objInsert m p.2 p.1) []
        = (cti.map Prod.swap).foldl (fun m q => objInsert m q.1 q.2) [] := by
      rw [List.foldl_map]
      rfl
    rw [hmap, objGet_foldl, ← List.map_reverse, List.find?_map]
    have hpred : ((fun p : ℕ × String => decide (p.1 = i)) ∘ Prod.swap)
        = fun (p : String × ℕ) => decide (p.2 = i) := by
      funext p; rfl
    rw [hpred]
    cases hf : cti.reverse.find? (fun p : String × ℕ => decide (p.2 = i)) with
    | some p => rfl
    | none => rfl

/-! ### C6: which indices the search loop extends with -/

/-- C6 counterexample: a 3-symbol vocabulary whose blank sits at index
0.  The loop extends with indices `[0, 1]` — including the blank — and
never with index 2, so the extended indices are not the non-blank
indices. -/
def v3blankFirst : Vocabulary := mkVocabulary [("-", 0), ("b", 1), ("a", 2)] 0

theorem C6_extend_indices_cex :
    extendIndices [(-1 : ℝ), -1, -1] = [0, 1] ∧
    (List.range (([(-1 : ℝ), -1, -1]).length)).filter
      (fun i => i != v3blankFirst.blankIndex) = [1, 2] ∧
    ([0, 1] : List ℕ) ≠ [1, 2] := by
  refine ⟨by decide, by decide, by decide⟩

/-- C6 as amended: the loop `for (cIndex = 0; cIndex < row.length - 1)`
feeds `extend` every index *except the last one*.  This coincides with
the set of non-blank indices exactly when the blank is the final
vocabulary index. -/
theorem C6_extend_indices_skips_last (row : List ℝ) (blankIndex : ℕ)
    (h : blankIndex + 1 = row.length) :
    extendIndices row
      = (List.range row.length).filter (fun i => i != blankIndex) := by
  rw [extendIndices, ← h]
  have h1 : blankIndex + 1 - 1 = blankIndex := by omega
  rw [h1, List.range_succ, List.filter_append]
  have h2 : (List.range blankIndex).filter (fun i => i != blankIndex)
      = List.range blankIndex := by
    apply List.filter_eq_self.mpr
    intro a ha
    have h3 := List.mem_range.mp ha
    simp only [bne_iff_ne, ne_eq, decide_eq_true_eq]
    omega
  have h4 : ([blankIndex].filter (fun i => i != blankIndex)) = ([] : List ℕ) := by
    simp
  rw [h2, h4, List.append_nil]

theorem C6_extend_indices_skips_last_witness :
    extendIndices [(-1 : ℝ), -1, -1]
      = (List.range (([(-1 : ℝ), -1, -1]).length)).filter (fun i => i != 2) :=
  C6_extend_indices_skips_last [(-1 : ℝ), -1, -1] 2 rfl

/-! ### C4: `search` performs no input validation -/

theorem BeamList.size_add (pool : BeamList) (beam : Option BeamEntry)
    (vocab : Vocabulary) : (pool.add beam vocab).size = pool.size := by
  cases beam with
  | none => rfl
  | some b =>
    rw [BeamList.add]
    split <;> rfl

theorem size_foldl_add (vocab : Vocabulary) (beam : BeamEntry) (row : List ℝ) :
    ∀ (idxs : List ℕ) (pool : BeamList),
    (idxs.foldl (fun p cIndex =>
      p.add (beam.extend cIndex (row.getD cIndex 0) (row.getD vocab.blankIndex 0))
        vocab) pool).size = pool.size := by
  intro idxs
  induction idxs with
  | nil => intro pool; rfl
  | cons i rest ih =>
    intro pool
    rw [List.foldl_cons, ih, BeamList.size_add]

theorem size_foldl_beams (vocab : Vocabulary) (row : List ℝ) :
    ∀ (beams : List BeamEntry) (init : BeamList),
    (beams.foldl (fun pool beam =>
      (extendIndices row).foldl
        (fun p cIndex =>
          p.add (beam.extend cIndex (row.getD cIndex 0) (row.getD vocab.blankIndex 0))
            vocab)
        (pool.add (beam.copy row (row.getD vocab.blankIndex 0)) vocab)) init).size
      = init.size := by
  intro beams
  induction beams with
  | nil => intro init; rfl
  | cons b rest ih =>
    intro init
    rw [List.foldl_cons, ih, size_foldl_add, BeamList.size_add]

theorem searchStep_size (vocab : Vocabulary) (w : ℕ) (beams : List BeamEntry)
    (row : List ℝ) : (searchStep vocab w beams row).size = w := by
  rw [searchStep]
  exact size_foldl_beams vocab row beams (BeamList.mk w [])

theorem setLengthJS_zero {α : Type} (l : List α) : setLengthJS l 0 = [] := by
  simp [setLengthJS]

theorem searchIter_width_zero (vocab : Vocabulary)
    (beams : List (Option BeamEntry)) (row : List ℝ) :
    searchIter vocab 0 beams row = [] := by
  rw [searchIter, BeamList.sort, searchStep_size, setLengthJS_zero]

theorem foldl_searchIter_zero (vocab : Vocabulary) :
    ∀ (rows : List (List ℝ)), rows.foldl (searchIter vocab 0) [] = [] := by
  intro rows
  induction rows with
  | nil => rfl
  | cons r rest ih => rw [List.foldl_cons, searchIter_width_zero]; exact ih

/-- C4 counterexample: `search` with beam width 0 on a well-formed
non-empty matrix returns the empty array — no `InvalidArgument` failure
exists — and `search` on a matrix with an empty time dimension returns
the root candidate instead of failing with `InvalidInput`. -/
theorem C4_search_no_validation_cex :
    search v3 [[(-1 : ℝ), -1, -1]] 0 = [] ∧
    search v3 ([] : List (List ℝ)) 3 = [some rootEntry] := by
  constructor
  · rw [search, List.foldl_cons, searchIter_width_zero]
    rfl
  · rfl

/-- C4 as amended: `search` performs no validation whatsoever and never
fails.  With beam width 0 and any non-empty matrix it simply returns an
empty result (the first sort truncates the beam array to length 0); an
empty time dimension returns the root candidate. -/
theorem C4_search_width_zero (vocab : Vocabulary) (m : List (List ℝ))
    (h : m ≠ []) : search vocab m 0 = [] := by
  cases m with
  | nil => exact absurd rfl h
  | cons r rest =>
    rw [search, List.foldl_cons, searchIter_width_zero]
    exact foldl_searchIter_zero vocab rest

theorem C4_search_width_zero_witness :
    search v3 [[(-1 : ℝ), -1, -1]] 0 = [] :=
  C4_search_width_zero v3 [[(-1 : ℝ), -1, -1]] (by simp)

/-! ### C10: `_last` always matches the final element of `seq` -/

/-- The implicit invariant of C10: `_last` is the final element of
`seq`, or `-1` when `seq` is empty. -/
def GoodLast (e : BeamEntry) : Prop := e.last = calcLast e.seq

theorem calcLast_concat (seq : List ℕ) (i : ℕ) :
    calcLast (seq ++ [i]) = (i : ℤ) := by
  rw [calcLast, List.getLast?_concat]

theorem goodLast_root : GoodLast rootEntry := rfl

theorem goodLast_jsLast_self (seq : List ℕ) (l : ℤ) (h : l = calcLast seq) :
    jsLast seq (some l) = calcLast seq := by
  rw [jsLast]
  by_cases h0 : l = 0
  · rw [if_pos h0]
  · rw [if_neg h0]; exact h

theorem goodLast_copy (e : BeamEntry) (row : List ℝ) (blank : ℝ)
    (e2 : BeamEntry) (hg : GoodLast e) (h : e.copy row blank = some e2) :
    GoodLast e2 := by
  rw [BeamEntry.copy] at h
  by_cases hl : e.last = -1
  · rw [if_pos hl] at h; cases h
  · rw [if_neg hl] at h
    injection h with h2
    rw [← h2]
    show jsLast e.seq (some e.last) = calcLast e.seq
    exact goodLast_jsLast_self e.seq e.last hg

theorem goodLast_extend (e : BeamEntry) (i : ℕ) (prob pb : ℝ)
    (e2 : BeamEntry) (h : e.extend i prob pb = some e2) : GoodLast e2 := by
  rw [BeamEntry.extend] at h
  by_cases h1 : e.last = -1 ∧ i = 0
  · rw [if_pos h1] at h
    injection h with h2
    rw [← h2]
    rfl
  · rw [if_neg h1] at h
    by_cases h3 : (i : ℤ) = e.last
    · rw [if_pos h3] at h
      by_cases h4 : e.pBlank = 0
      · rw [if_pos h4] at h; cases h
      · rw [if_neg h4] at h
        injection h with h2
        rw [← h2]
        show jsLast (e.seq ++ [i]) (some (i : ℤ)) = calcLast (e.seq ++ [i])
        exact goodLast_jsLast_self _ _ (calcLast_concat e.seq i).symm
    · rw [if_neg h3] at h
      injection h with h2
      rw [← h2]
      show jsLast (e.seq ++ [i]) (some (i : ℤ)) = calcLast (e.seq ++ [i])
      exact goodLast_jsLast_self _ _ (calcLast_concat e.seq i).symm

theorem goodLast_merge (a b : BeamEntry) (h : GoodLast a) :
    GoodLast (mergeEntry a b) := h

theorem goodLast_add (pool : BeamList) (beam : Option BeamEntry)
    (vocab : Vocabulary) (hp : ∀ e ∈ pool.beamList, GoodLast e)
    (hb : ∀ b, beam = some b → GoodLast b) :
    ∀ e ∈ (pool.add beam vocab).beamList, GoodLast e := by
  cases beam with
  | none => exact hp
  | some b =>
    rw [BeamList.add]
    split
    · intro e he
      simp only at he
      obtain ⟨x, hx, hxe⟩ := List.mem_map.mp he
      by_cases hc : (x.convertToStr vocab == b.convertToStr vocab) = true
      · rw [if_pos hc] at hxe
        rw [← hxe]
        exact goodLast_merge x b (hp x hx)
      · rw [if_neg hc] at hxe
        rw [← hxe]
        exact hp x hx
    · intro e he
      simp only at he
      rcases List.mem_append.mp he with h1 | h1
      · exact hp e h1
      · rw [List.mem_singleton.mp h1]
        exact hb b rfl

theorem goodLast_foldl_extends (vocab : Vocabulary) (beam : BeamEntry)
    (row : List ℝ) :
    ∀ (idxs : List ℕ) (pool : BeamList),
    (∀ e ∈ pool.beamList, GoodLast e) →
    ∀ e ∈ (idxs.foldl (fun p cIndex =>
      p.add (beam.extend cIndex (row.getD cIndex 0) (row.getD vocab.blankIndex 0))
        vocab) pool).beamList, GoodLast e := by
  intro idxs
  induction idxs with
  | nil => intro pool hp; exact hp
  | cons i rest ih =>
    intro pool hp
    rw [List.foldl_cons]
    apply ih
    apply goodLast_add _ _ _ hp
    intro b hb
    exact goodLast_extend beam i _ _ b hb

theorem goodLast_searchStep (vocab : Vocabulary) (_w : ℕ) (row : List ℝ) :
    ∀ (beams : List BeamEntry) (init : BeamList),
    (∀ e ∈ beams, GoodLast e) →
    (∀ e ∈ init.beamList, GoodLast e) →
    ∀ e ∈ (beams.foldl (fun pool beam =>
      (extendIndices row).foldl
        (fun p cIndex =>
          p.add (beam.extend cIndex (row.getD cIndex 0) (row.getD vocab.blankIndex 0))
            vocab)
        (pool.add (beam.copy row (row.getD vocab.blankIndex 0)) vocab)) init).beamList,
      GoodLast e := by
  intro beams
  induction beams with
  | nil => intro init _ hi; exact hi
  | cons b rest ih =>
    intro init hbeams hi
    rw [List.foldl_cons]
    apply ih
    · intro e he; exact hbeams e (List.mem_cons_of_mem _ he)
    · apply goodLast_foldl_extends
      apply goodLast_add _ _ _ hi
      intro b2 hb2
      exact goodLast_copy b _ _ b2 (hbeams b (List.mem_cons_self _ _)) hb2

theorem mem_setLengthJS {α : Type} {e : α} (l : List α) (n : ℕ)
    (h : some e ∈ setLengthJS l n) : e ∈ l := by
  rw [setLengthJS] at h
  have h2 := List.mem_of_mem_take h
  rcases List.mem_append.mp h2 with h3 | h3
  · obtain ⟨x, hx, hxe⟩ := List.mem_map.mp h3
    cases hxe
    exact hx
  · cases List.eq_of_mem_replicate h3

theorem goodLast_searchIter (vocab : Vocabulary) (w : ℕ)
    (beams : List (Option BeamEntry)) (row : List ℝ)
    (hb : ∀ e : BeamEntry, some e ∈ beams → GoodLast e) :
    ∀ e : BeamEntry, some e ∈ searchIter vocab w beams row → GoodLast e := by
  intro e he
  rw [searchIter, BeamList.sort] at he
  have h2 := mem_setLengthJS _ _ he
  have h3 := mem_sortDesc _ h2
  revert h3
  rw [searchStep]
  apply goodLast_searchStep vocab w row beams.reduceOption (BeamList.mk w [])
  · intro x hx
    exact hb x (List.reduceOption_mem_iff.mp hx)
  · intro x hx
    cases hx

theorem goodLast_search_fold (vocab : Vocabulary) (w : ℕ) :
    ∀ (rows : List (List ℝ)) (beams : List (Option BeamEntry)),
    (∀ e : BeamEntry, some e ∈ beams → GoodLast e) →
    ∀ e : BeamEntry, some e ∈ rows.foldl (searchIter vocab w) beams → GoodLast e := by
  intro rows
  induction rows with
  | nil => intro beams hb; exact hb
  | cons r rest ih =>
    intro beams hb
    rw [List.foldl_cons]
    exact ih _ (goodLast_searchIter vocab w beams r hb)

/-- C10: every `BeamEntry` observable in the result of a `search` has
`_last` equal to the final element of its `seq` (or `-1` for the empty
sequence), despite the constructor treating a supplied `last` of `0` as
falsy and recomputing it from `seq`. -/
theorem C10_last_matches_seq (vocab : Vocabulary) (logProbs : List (List ℝ))
    (width : ℕ) (e : BeamEntry) (h : some e ∈ search vocab logProbs width) :
    GoodLast e := by
  revert h
  rw [search]
  apply goodLast_search_fold vocab width logProbs [some rootEntry]
  intro x hx
  have h2 : some x = some rootEntry := List.mem_singleton.mp hx
  injection h2 with h3
  rw [h3]
  exact goodLast_root

theorem C10_last_matches_seq_witness : GoodLast rootEntry :=
  C10_last_matches_seq v3 [] 1 rootEntry (List.mem_singleton.mpr rfl)

/-! ### C2: the `pTotal = logSumExp(pBlank, pNonBlank)` invariant -/

/-- The claimed invariant of a beam entry. -/
def PTotalInv (e : BeamEntry) : Prop :=
  e.pTotal = logSumExp e.pBlank e.pNonBlank

/-- The successor produced by the leading-space merge
`rootEntry.extend 0 (-1) (-1)`: all mass sits in `pTotal` while
`pBlank` and `pNonBlank` stay at the sentinel. -/
noncomputable def C2cexEntry : BeamEntry :=
  BeamEntry.mk [] (logSumExp (-1) (-1)) 0 0 (-1) (some rootEntry)

theorem logSumExp_neg_one_neg_one : logSumExp (-1) (-1) = -1 + Real.log 2 := by
  rw [logSumExp, if_neg (by norm_num), if_neg (by norm_num),
    if_neg (lt_irrefl (-1 : ℝ))]
  norm_num

/-- C2 counterexample: the leading-space merge successor (extend case 1,
reached by `search` whenever the root is extended with index 0) has
`pTotal = logSumExp(-1, -1) = log 2 - 1 ≠ 0`, yet
`logSumExp(pBlank, pNonBlank) = logSumExp(0, 0) = 0`. -/
theorem C2_invariant_cex :
    rootEntry.extend 0 (-1) (-1) = some C2cexEntry ∧
    C2cexEntry.pTotal ≠ logSumExp C2cexEntry.pBlank C2cexEntry.pNonBlank := by
  constructor
  · rw [BeamEntry.extend, if_pos (show rootEntry.last = -1 ∧ 0 = 0 from ⟨rfl, rfl⟩)]
    rw [show rootEntry.pTotal = (0 : ℝ) from rfl, zero_add]
    rfl
  · show logSumExp (-1) (-1) ≠ logSumExp 0 0
    rw [logSumExp_zero_left, logSumExp_neg_one_neg_one]
    intro heq
    have h2 := Real.log_two_lt_d9
    linarith

/-- C2 as amended: the invariant holds for a freshly constructed entry,
for every `copy` successor, and for every `extend` successor other than
the leading-space merge; an in-place pool merge preserves it as long as
none of the probabilities involved collides with the zero sentinel.
(The leading-space successor of the counterexample, and merges that hit
the sentinel, are the only violations.) -/
theorem C2_invariant_amended :
    (∀ (seq : List ℕ) (l : Option ℤ), PTotalInv (mkBeamEntry seq l)) ∧
    (∀ (e : BeamEntry) (row : List ℝ) (blank : ℝ) (e2 : BeamEntry),
      e.copy row blank = some e2 → PTotalInv e2) ∧
    (∀ (e : BeamEntry) (i : ℕ) (prob pb : ℝ) (e2 : BeamEntry),
      ¬(e.last = -1 ∧ i = 0) → e.extend i prob pb = some e2 → PTotalInv e2) ∧
    (∀ (a b : BeamEntry), PTotalInv a → PTotalInv b →
      a.pBlank ≠ 0 → a.pNonBlank ≠ 0 → b.pBlank ≠ 0 → b.pNonBlank ≠ 0 →
      a.pTotal ≠ 0 → b.pTotal ≠ 0 →
      logSumExp b.pBlank a.pBlank ≠ 0 → logSumExp b.pNonBlank a.pNonBlank ≠ 0 →
      PTotalInv (mergeEntry a b)) := by
  refine ⟨?_, ?_, ?_, ?_⟩
  · intro seq l
    show (0 : ℝ) = logSumExp 0 0
    rw [logSumExp_zero_left]
  · intro e row blank e2 h
    rw [BeamEntry.copy] at h
    by_cases hl : e.last = -1
    · rw [if_pos hl] at h; cases h
    · rw [if_neg hl] at h
      injection h with h2
      rw [← h2]
      show logSumExp _ _ = logSumExp _ _
      exact logSumExp_comm _ _
  · intro e i prob pb e2 h1 h
    rw [BeamEntry.extend, if_neg h1] at h
    by_cases h3 : (i : ℤ) = e.last
    · rw [if_pos h3] at h
      by_cases h4 : e.pBlank = 0
      · rw [if_pos h4] at h; cases h
      · rw [if_neg h4] at h
        injection h with h2
        rw [← h2]
        show e.pBlank + prob = logSumExp 0 (e.pBlank + prob)
        rw [logSumExp_zero_left]
    · rw [if_neg h3] at h
      injection h with h2
      rw [← h2]
      show e.pTotal + prob = logSumExp 0 (e.pTotal + prob)
      rw [logSumExp_zero_left]
  · intro a b ha hb haB haN hbB hbN haT hbT hBB hNN
    have ea : Real.exp a.pTotal = Real.exp a.pBlank + Real.exp a.pNonBlank := by
      rw [ha]; exact exp_logSumExp _ _ haB haN
    have eb : Real.exp b.pTotal = Real.exp b.pBlank + Real.exp b.pNonBlank := by
      rw [hb]; exact exp_logSumExp _ _ hbB hbN
    show logSumExp b.pTotal a.pTotal
        = logSumExp (logSumExp b.pBlank a.pBlank) (logSumExp b.pNonBlank a.pNonBlank)
    rw [logSumExp_eq b.pTotal a.pTotal hbT haT, logSumExp_eq _ _ hBB hNN,
      exp_logSumExp b.pBlank a.pBlank hbB haB,
      exp_logSumExp b.pNonBlank a.pNonBlank hbN haN, ea, eb]
    congr 1
    ring

/-- A concrete `copy` successor used to witness the amended C2. -/
noncomputable def C2witEntry : BeamEntry :=
  BeamEntry.mk [1] (logSumExp (-5) (-5)) (-5) (-5) 1
    (some (BeamEntry.mk [1] (-2) (-3) (-4) 1 none))

theorem C2_invariant_amended_witness : PTotalInv C2witEntry := by
  apply C2_invariant_amended.2.1 (BeamEntry.mk [1] (-2) (-3) (-4) 1 none)
    [(-1 : ℝ), -1, -1] (-1) C2witEntry
  rw [BeamEntry.copy, if_neg (by decide)]
  simp only [C2witEntry, BeamEntry.parent_mk, BeamEntry.pNonBlank_mk,
    BeamEntry.pTotal_mk, BeamEntry.seq_mk, BeamEntry.last_mk,
    BeamEntry.mk.injEq, Option.some.injEq]
  norm_num [jsLast, List.getD]

/-! ### C8 and C9: the contracts of `extend` on a repeated label and of `copy` -/

/-- C8: extending with the index equal to `_last`: if `pBlank` is the
zero sentinel there is no successor; otherwise the successor appends the
index and has `pNonBlank = pTotal = pBlank + symbolLogProb`. -/
theorem C8_extend_same_label (e : BeamEntry) (i : ℕ) (prob pb : ℝ)
    (h : (i : ℤ) = e.last) :
    (e.pBlank = 0 → e.extend i prob pb = none) ∧
    (e.pBlank ≠ 0 → e.extend i prob pb
      = some (BeamEntry.mk (e.seq ++ [i]) (e.pBlank + prob) 0 (e.pBlank + prob)
          (i : ℤ) (some e))) := by
  have hne : ¬(e.last = -1 ∧ i = 0) := by
    rintro ⟨h1, h2⟩
    rw [h1] at h
    omega
  rw [BeamEntry.extend, if_neg hne, if_pos h]
  constructor
  · intro h0; rw [if_pos h0]
  · intro h0
    rw [if_neg h0]
    have hj : jsLast (e.seq ++ [i]) (some (i : ℤ)) = (i : ℤ) := by
      rw [jsLast]
      by_cases hi : (i : ℤ) = 0
      · rw [if_pos hi, calcLast_concat]
      · rw [if_neg hi]
    rw [hj]

theorem C8_extend_same_label_witness :
    (BeamEntry.mk [1] (-2) 0 (-2) 1 none).extend 1 (-1) (-1) = none ∧
    (BeamEntry.mk [1] (-2) (-3) (-4) 1 none).extend 1 (-1) (-1)
      = some (BeamEntry.mk [1, 1] (-3 + -1) 0 (-3 + -1) 1
          (some (BeamEntry.mk [1] (-2) (-3) (-4) 1 none))) := by
  constructor
  · exact (C8_extend_same_label (BeamEntry.mk [1] (-2) 0 (-2) 1 none)
      1 (-1) (-1) (by decide)).1 rfl
  · exact (C8_extend_same_label (BeamEntry.mk [1] (-2) (-3) (-4) 1 none)
      1 (-1) (-1) (by decide)).2 (by norm_num)

/-- C9: `copy` is undefined for the root entry with no last label; for
an entry that has one, the successor keeps `seq`, adds the row
log-probability of `_last` into `pNonBlank`, and `pTotal` is the
log-sum of the new `pBlank` and `pNonBlank`. -/
theorem C9_copy_contract (e : BeamEntry) (row : List ℝ) (blank : ℝ) :
    (e.last = -1 → e.copy row blank = none) ∧
    (0 ≤ e.last → ∃ e2 : BeamEntry, e.copy row blank = some e2 ∧
      e2.seq = e.seq ∧
      e2.pNonBlank = e.pNonBlank + row.getD e.last.toNat 0 ∧
      e2.pTotal = logSumExp e2.pBlank e2.pNonBlank) := by
  constructor
  · intro h; rw [BeamEntry.copy, if_pos h]
  · intro h
    have hne : ¬ e.last = -1 := by omega
    rw [BeamEntry.copy, if_neg hne]
    exact ⟨_, rfl, rfl, rfl, logSumExp_comm _ _⟩

theorem C9_copy_contract_witness :
    (rootEntry.copy [(-1 : ℝ)] (-1) = none) ∧
    ∃ e2 : BeamEntry,
      (BeamEntry.mk [1] (-2) (-3) (-4) 1 none).copy [(-1 : ℝ), -1, -1] (-1)
        = some e2 ∧
      e2.seq = [1] ∧ e2.pNonBlank = -4 + (-1 : ℝ) ∧
      e2.pTotal = logSumExp e2.pBlank e2.pNonBlank := by
  constructor
  · exact (C9_copy_contract rootEntry [(-1 : ℝ)] (-1)).1 rfl
  · exact (C9_copy_contract (BeamEntry.mk [1] (-2) (-3) (-4) 1 none)
      [(-1 : ℝ), -1, -1] (-1)).2 (by decide)

/-! ### C3: a concrete end-to-end search

The probability matrix concentrates the mass of every row on the
uncollapsed path `a, -, a, -, b, -` (with `-` the blank): log-probability
`-1` for the path symbol of the row and `-30` for the other two symbols.
The vocabulary `v3` maps `b` to 0, `a` to 1 and the blank to 2, so the
blank is the final index (as the search loop requires) and `a` avoids
the hard-wired leading-space merge of index 0. -/

def row1 : List ℝ := [-30, -1, -30]

def row2 : List ℝ := [-30, -30, -1]

def row5 : List ℝ := [-1, -30, -30]

def M3 : List (List ℝ) := [row1, row2, row1, row2, row5, row2]

noncomputable def cVal : ℝ := logSumExp (-31) (-2)

noncomputable def gVal : ℝ := logSumExp (-33) (-4)

/-- The beam entries arising in the six steps of the run. -/
noncomputable def entA : BeamEntry :=
  BeamEntry.mk [] (logSumExp (-30) (-30)) 0 0 (-1) (some rootEntry)

def entB : BeamEntry := BeamEntry.mk [1] (-1) 0 (-1) 1 (some rootEntry)

noncomputable def entC : BeamEntry := BeamEntry.mk [1] cVal (-2) (-31) 1 (some entB)

def entD : BeamEntry := BeamEntry.mk [1, 0] (-31) 0 (-31) 0 (some entB)

noncomputable def entE : BeamEntry :=
  BeamEntry.mk [1] (logSumExp (-32) (cVal - 30)) (cVal - 30) (-32) 1 (some entC)

noncomputable def entF : BeamEntry :=
  BeamEntry.mk [1, 0] (cVal - 30) 0 (cVal - 30) 0 (some entC)

noncomputable def entG : BeamEntry := BeamEntry.mk [1, 1] (-3) 0 (-3) 1 (some entC)

noncomputable def entH : BeamEntry :=
  BeamEntry.mk [1, 1] gVal (-4) (-33) 1 (some entG)

noncomputable def entI : BeamEntry :=
  BeamEntry.mk [1, 1, 0] (-33) 0 (-33) 0 (some entG)

noncomputable def entJ : BeamEntry :=
  BeamEntry.mk [1, 1] (logSumExp (-63) (gVal - 30)) (gVal - 30) (-63) 1 (some entH)

noncomputable def entK : BeamEntry :=
  BeamEntry.mk [1, 1, 0] (gVal - 1) 0 (gVal - 1) 0 (some entH)

noncomputable def entL : BeamEntry :=
  BeamEntry.mk [1, 1, 1] (-34) 0 (-34) 1 (some entH)

noncomputable def entM : BeamEntry :=
  BeamEntry.mk [1, 1, 0] (logSumExp (gVal - 31) (gVal - 2)) (gVal - 2) (gVal - 31) 0
    (some entK)

noncomputable def entN : BeamEntry :=
  BeamEntry.mk [1, 1, 0, 1] (gVal - 31) 0 (gVal - 31) 1 (some entK)

theorem exp_le_one_of_nonpos (x : ℝ) (h : x ≤ 0) : Real.exp x ≤ 1 := by
  rw [show (1 : ℝ) = Real.exp 0 from Real.exp_zero.symm]
  exact Real.exp_le_exp.mpr h

theorem cVal_bounds : -2 ≤ cVal ∧ cVal ≤ -1 := by
  constructor
  · exact right_le_logSumExp (-31) (-2) (by norm_num) (by norm_num)
  · have h1 := logSumExp_le_add_exp (-31) (-2) (by norm_num) (by norm_num)
    have h2 : Real.exp ((-31 : ℝ) - -2) ≤ 1 := exp_le_one_of_nonpos _ (by norm_num)
    rw [cVal]
    linarith

theorem gVal_bounds : -4 ≤ gVal ∧ gVal ≤ -3 := by
  constructor
  · exact right_le_logSumExp (-33) (-4) (by norm_num) (by norm_num)
  · have h1 := logSumExp_le_add_exp (-33) (-4) (by norm_num) (by norm_num)
    have h2 : Real.exp ((-33 : ℝ) - -4) ≤ 1 := exp_le_one_of_nonpos _ (by norm_num)
    rw [gVal]
    linarith

theorem entA_lt_entB : logSumExp (-30) (-30) < -1 := by
  have h1 := logSumExp_le_add_exp (-30) (-30) (by norm_num) (by norm_num)
  have h2 : Real.exp ((-30 : ℝ) - -30) = 1 := by norm_num [Real.exp_zero]
  rw [h2] at h1
  linarith

theorem extend_root_0 : rootEntry.extend 0 (-30) (-30) = some entA := by
  rw [BeamEntry.extend, if_pos (show rootEntry.last = -1 ∧ 0 = 0 from ⟨rfl, rfl⟩)]
  rw [show rootEntry.pTotal = (0 : ℝ) from rfl, zero_add]
  rfl

theorem extend_root_1 : rootEntry.extend 1 (-1) (-30) = some entB := by
  rw [BeamEntry.extend, if_neg (by decide), if_neg (by decide)]
  rw [show rootEntry.pTotal = (0 : ℝ) from rfl, zero_add]
  rfl

theorem pool_step1 : searchStep v3 1 [rootEntry] row1 = BeamList.mk 1 [entA, entB] := by
  show (((BeamList.mk 1 []).add (rootEntry.copy row1 (-30)) v3).add
      (rootEntry.extend 0 (-30) (-30)) v3).add (rootEntry.extend 1 (-1) (-30)) v3
    = BeamList.mk 1 [entA, entB]
  rw [show rootEntry.copy row1 (-30) = none from rfl, extend_root_0, extend_root_1]
  rfl

theorem iter1 : searchIter v3 1 [some rootEntry] row1 = [some entB] := by
  rw [searchIter,
    show ([some rootEntry] : List (Option BeamEntry)).reduceOption = [rootEntry]
      from rfl,
    pool_step1]
  show setLengthJS (sortDesc [entA, entB]) 1 = [some entB]
  rw [show sortDesc [entA, entB]
      = (if entB.pTotal ≤ entA.pTotal then entA :: [entB] else entB :: [entA])
      from rfl]
  rw [if_neg (show ¬ entB.pTotal ≤ entA.pTotal from by
    show ¬ ((-1 : ℝ) ≤ logSumExp (-30) (-30))
    push_neg
    exact entA_lt_entB)]
  rfl

theorem copy_entB : entB.copy row2 (-1) = some entC := by
  rw [BeamEntry.copy, if_neg (by decide)]
  show some (BeamEntry.mk [1] (logSumExp (-1 + -30) (-1 + -1)) (-1 + -1) (-1 + -30)
      1 (some entB)) = some entC
  rw [show (-1 + -30 : ℝ) = -31 from by norm_num,
    show (-1 + -1 : ℝ) = -2 from by norm_num]
  rfl

theorem extend_entB_0 : entB.extend 0 (-30) (-1) = some entD := by
  rw [BeamEntry.extend, if_neg (by decide), if_neg (by decide)]
  show some (BeamEntry.mk [1, 0] (-1 + -30) 0 (-1 + -30) 0 (some entB)) = some entD
  rw [show (-1 + -30 : ℝ) = -31 from by norm_num]
  rfl

theorem extend_entB_1 : entB.extend 1 (-30) (-1) = none := by
  rw [BeamEntry.extend, if_neg (by decide),
    if_pos (show ((1 : ℕ) : ℤ) = entB.last from by decide),
    if_pos (show entB.pBlank = 0 from rfl)]

theorem pool_step2 : searchStep v3 1 [entB] row2 = BeamList.mk 1 [entC, entD] := by
  show (((BeamList.mk 1 []).add (entB.copy row2 (-1)) v3).add
      (entB.extend 0 (-30) (-1)) v3).add (entB.extend 1 (-30) (-1)) v3
    = BeamList.mk 1 [entC, entD]
  rw [copy_entB, extend_entB_0, extend_entB_1]
  rfl

theorem iter2 : searchIter v3 1 [some entB] row2 = [some entC] := by
  rw [searchIter,
    show ([some entB] : List (Option BeamEntry)).reduceOption = [entB] from rfl,
    pool_step2]
  show setLengthJS (sortDesc [entC, entD]) 1 = [some entC]
  rw [show sortDesc [entC, entD]
      = (if entD.pTotal ≤ entC.pTotal then entC :: [entD] else entD :: [entC])
      from rfl]
  rw [if_pos (show entD.pTotal ≤ entC.pTotal from by
    show (-31 : ℝ) ≤ cVal
    linarith [cVal_bounds.1])]
  rfl

theorem copy_entC : entC.copy row1 (-30) = some entE := by
  rw [BeamEntry.copy, if_neg (by decide)]
  show some (BeamEntry.mk [1] (logSumExp (-31 + -1) (cVal + -30)) (cVal + -30)
      (-31 + -1) 1 (some entC)) = some entE
  rw [show (-31 + -1 : ℝ) = -32 from by norm_num,
    show cVal + -30 = cVal - 30 from by ring]
  rfl

theorem extend_entC_0 : entC.extend 0 (-30) (-30) = some entF := by
  rw [BeamEntry.extend, if_neg (by decide), if_neg (by decide)]
  show some (BeamEntry.mk [1, 0] (cVal + -30) 0 (cVal + -30) 0 (some entC))
    = some entF
  rw [show cVal + -30 = cVal - 30 from by ring]
  rfl

theorem extend_entC_1 : entC.extend 1 (-1) (-30) = some entG := by
  rw [BeamEntry.extend, if_neg (by decide),
    if_pos (show ((1 : ℕ) : ℤ) = entC.last from by decide),
    if_neg (show ¬ entC.pBlank = 0 from by
      show ¬ (-2 : ℝ) = 0
      norm_num)]
  show some (BeamEntry.mk [1, 1] (-2 + -1) 0 (-2 + -1) 1 (some entC)) = some entG
  rw [show (-2 + -1 : ℝ) = -3 from by norm_num]
  rfl

theorem pool_step3 : searchStep v3 1 [entC] row1 = BeamList.mk 1 [entE, entF, entG] := by
  show (((BeamList.mk 1 []).add (entC.copy row1 (-30)) v3).add
      (entC.extend 0 (-30) (-30)) v3).add (entC.extend 1 (-1) (-30)) v3
    = BeamList.mk 1 [entE, entF, entG]
  rw [copy_entC, extend_entC_0, extend_entC_1]
  rfl

theorem entE_upper : logSumExp (-32) (cVal - 30) < -3 := by
  have hc1 := cVal_bounds.1
  have hc2 := cVal_bounds.2
  have hne : (cVal - 30 : ℝ) ≠ 0 := ne_of_lt (by linarith)
  have h1 := logSumExp_le_add_exp (-32) (cVal - 30) (by norm_num) hne
  have h2 : Real.exp ((-32 : ℝ) - (cVal - 30)) ≤ 1 :=
    exp_le_one_of_nonpos _ (by linarith)
  linarith

theorem entE_lower : cVal - 30 ≤ logSumExp (-32) (cVal - 30) := by
  have hc2 := cVal_bounds.2
  exact right_le_logSumExp (-32) (cVal - 30) (by norm_num) (ne_of_lt (by linarith))

theorem iter3 : searchIter v3 1 [some entC] row1 = [some entG] := by
  rw [searchIter,
    show ([some entC] : List (Option BeamEntry)).reduceOption = [entC] from rfl,
    pool_step3]
  show setLengthJS (sortDesc [entE, entF, entG]) 1 = [some entG]
  rw [show sortDesc [entE, entF, entG]
      = insertDesc entE (insertDesc entF [entG]) from rfl]
  rw [show insertDesc entF [entG]
      = (if entG.pTotal ≤ entF.pTotal then entF :: [entG] else entG :: [entF])
      from rfl]
  rw [if_neg (show ¬ entG.pTotal ≤ entF.pTotal from by
    show ¬ (-3 : ℝ) ≤ cVal - 30
    have hc2 := cVal_bounds.2
    push_neg
    linarith)]
  rw [show insertDesc entE [entG, entF]
      = (if entG.pTotal ≤ entE.pTotal then entE :: [entG, entF]
         else entG :: insertDesc entE [entF]) from rfl]
  rw [if_neg (show ¬ entG.pTotal ≤ entE.pTotal from by
    show ¬ (-3 : ℝ) ≤ logSumExp (-32) (cVal - 30)
    push_neg
    exact entE_upper)]
  rw [show insertDesc entE [entF]
      = (if entF.pTotal ≤ entE.pTotal then entE :: [entF] else entF :: [entE])
      from rfl]
  rw [if_pos (show entF.pTotal ≤ entE.pTotal from entE_lower)]
  rfl

theorem copy_entG : entG.copy row2 (-1) = some entH := by
  rw [BeamEntry.copy, if_neg (by decide)]
  show some (BeamEntry.mk [1, 1] (logSumExp (-3 + -30) (-3 + -1)) (-3 + -1)
      (-3 + -30) 1 (some entG)) = some entH
  rw [show (-3 + -30 : ℝ) = -33 from by norm_num,
    show (-3 + -1 : ℝ) = -4 from by norm_num]
  rfl

theorem extend_entG_0 : entG.extend 0 (-30) (-1) = some entI := by
  rw [BeamEntry.extend, if_neg (by decide), if_neg (by decide)]
  show some (BeamEntry.mk [1, 1, 0] (-3 + -30) 0 (-3 + -30) 0 (some entG))
    = some entI
  rw [show (-3 + -30 : ℝ) = -33 from by norm_num]
  rfl

theorem extend_entG_1 : entG.extend 1 (-30) (-1) = none := by
  rw [BeamEntry.extend, if_neg (by decide),
    if_pos (show ((1 : ℕ) : ℤ) = entG.last from by decide),
    if_pos (show entG.pBlank = 0 from rfl)]

theorem pool_step4 : searchStep v3 1 [entG] row2 = BeamList.mk 1 [entH, entI] := by
  show (((BeamList.mk 1 []).add (entG.copy row2 (-1)) v3).add
      (entG.extend 0 (-30) (-1)) v3).add (entG.extend 1 (-30) (-1)) v3
    = BeamList.mk 1 [entH, entI]
  rw [copy_entG, extend_entG_0, extend_entG_1]
  rfl

theorem iter4 : searchIter v3 1 [some entG] row2 = [some entH] := by
  rw [searchIter,
    show ([some entG] : List (Option BeamEntry)).reduceOption = [entG] from rfl,
    pool_step4]
  show setLengthJS (sortDesc [entH, entI]) 1 = [some entH]
  rw [show sortDesc [entH, entI]
      = (if entI.pTotal ≤ entH.pTotal then entH :: [entI] else entI :: [entH])
      from rfl]
  rw [if_pos (show entI.pTotal ≤ entH.pTotal from by
    show (-33 : ℝ) ≤ gVal
    linarith [gVal_bounds.1])]
  rfl

theorem copy_entH : entH.copy row5 (-30) = some entJ := by
  rw [BeamEntry.copy, if_neg (by decide)]
  show some (BeamEntry.mk [1, 1] (logSumExp (-33 + -30) (gVal + -30)) (gVal + -30)
      (-33 + -30) 1 (some entH)) = some entJ
  rw [show (-33 + -30 : ℝ) = -63 from by norm_num,
    show gVal + -30 = gVal - 30 from by ring]
  rfl

theorem extend_entH_0 : entH.extend 0 (-1) (-30) = some entK := by
  rw [BeamEntry.extend, if_neg (by decide), if_neg (by decide)]
  show some (BeamEntry.mk [1, 1, 0] (gVal + -1) 0 (gVal + -1) 0 (some entH))
    = some entK
  rw [show gVal + -1 = gVal - 1 from by ring]
  rfl

theorem extend_entH_1 : entH.extend 1 (-30) (-30) = some entL := by
  rw [BeamEntry.extend, if_neg (by decide),
    if_pos (show ((1 : ℕ) : ℤ) = entH.last from by decide),
    if_neg (show ¬ entH.pBlank = 0 from by
      show ¬ (-4 : ℝ) = 0
      norm_num)]
  show some (BeamEntry.mk [1, 1, 1] (-4 + -30) 0 (-4 + -30) 1 (some entH))
    = some entL
  rw [show (-4 + -30 : ℝ) = -34 from by norm_num]
  rfl

theorem pool_step5 : searchStep v3 1 [entH] row5 = BeamList.mk 1 [entJ, entK, entL] := by
  show (((BeamList.mk 1 []).add (entH.copy row5 (-30)) v3).add
      (entH.extend 0 (-1) (-30)) v3).add (entH.extend 1 (-30) (-30)) v3
    = BeamList.mk 1 [entJ, entK, entL]
  rw [copy_entH, extend_entH_0, extend_entH_1]
  rfl

theorem entJ_upper : logSumExp (-63) (gVal - 30) < gVal - 1 := by
  have hg1 := gVal_bounds.1
  have hg2 := gVal_bounds.2
  have hne : (gVal - 30 : ℝ) ≠ 0 := ne_of_lt (by linarith)
  have h1 := logSumExp_le_add_exp (-63) (gVal - 30) (by norm_num) hne
  have h2 : Real.exp ((-63 : ℝ) - (gVal - 30)) ≤ 1 :=
    exp_le_one_of_nonpos _ (by linarith)
  linarith

theorem entJ_lower : gVal - 30 ≤ logSumExp (-63) (gVal - 30) := by
  have hg2 := gVal_bounds.2
  exact right_le_logSumExp (-63) (gVal - 30) (by norm_num) (ne_of_lt (by linarith))

theorem iter5 : searchIter v3 1 [some entH] row5 = [some entK] := by
  rw [searchIter,
    show ([some entH] : List (Option BeamEntry)).reduceOption = [entH] from rfl,
    pool_step5]
  show setLengthJS (sortDesc [entJ, entK, entL]) 1 = [some entK]
  rw [show sortDesc [entJ, entK, entL]
      = insertDesc entJ (insertDesc entK [entL]) from rfl]
  rw [show insertDesc entK [entL]
      = (if entL.pTotal ≤ entK.pTotal then entK :: [entL] else entL :: [entK])
      from rfl]
  rw [if_pos (show entL.pTotal ≤ entK.pTotal from by
    show (-34 : ℝ) ≤ gVal - 1
    linarith [gVal_bounds.1])]
  rw [show insertDesc entJ [entK, entL]
      = (if entK.pTotal ≤ entJ.pTotal then entJ :: [entK, entL]
         else entK :: insertDesc entJ [entL]) from rfl]
  rw [if_neg (show ¬ entK.pTotal ≤ entJ.pTotal from by
    show ¬ gVal - 1 ≤ logSumExp (-63) (gVal - 30)
    push_neg
    exact entJ_upper)]
  rw [show insertDesc entJ [entL]
      = (if entL.pTotal ≤ entJ.pTotal then entJ :: [entL] else entL :: [entJ])
      from rfl]
  rw [if_pos (show entL.pTotal ≤ entJ.pTotal from by
    show (-34 : ℝ) ≤ logSumExp (-63) (gVal - 30)
    have h := entJ_lower
    linarith [gVal_bounds.1])]
  rfl

theorem copy_entK : entK.copy row2 (-1) = some entM := by
  rw [BeamEntry.copy, if_neg (by decide)]
  show some (BeamEntry.mk [1, 1, 0] (logSumExp (gVal - 1 + -30) (gVal - 1 + -1))
      (gVal - 1 + -1) (gVal - 1 + -30) 0 (some entK)) = some entM
  rw [show gVal - 1 + -30 = gVal - 31 from by ring,
    show gVal - 1 + -1 = gVal - 2 from by ring]
  rfl

theorem extend_entK_0 : entK.extend 0 (-30) (-1) = none := by
  rw [BeamEntry.extend, if_neg (by decide),
    if_pos (show ((0 : ℕ) : ℤ) = entK.last from by decide),
    if_pos (show entK.pBlank = 0 from rfl)]

theorem extend_entK_1 : entK.extend 1 (-30) (-1) = some entN := by
  rw [BeamEntry.extend, if_neg (by decide), if_neg (by decide)]
  show some (BeamEntry.mk [1, 1, 0, 1] (gVal - 1 + -30) 0 (gVal - 1 + -30) 1
      (some entK)) = some entN
  rw [show gVal - 1 + -30 = gVal - 31 from by ring]
  rfl

theorem pool_step6 : searchStep v3 1 [entK] row2 = BeamList.mk 1 [entM, entN] := by
  show (((BeamList.mk 1 []).add (entK.copy row2 (-1)) v3).add
      (entK.extend 0 (-30) (-1)) v3).add (entK.extend 1 (-30) (-1)) v3
    = BeamList.mk 1 [entM, entN]
  rw [copy_entK, extend_entK_0, extend_entK_1]
  rfl

theorem iter6 : searchIter v3 1 [some entK] row2 = [some entM] := by
  rw [searchIter,
    show ([some entK] : List (Option BeamEntry)).reduceOption = [entK] from rfl,
    pool_step6]
  show setLengthJS (sortDesc [entM, entN]) 1 = [some entM]
  rw [show sortDesc [entM, entN]
      = (if entN.pTotal ≤ entM.pTotal then entM :: [entN] else entN :: [entM])
      from rfl]
  rw [if_pos (show entN.pTotal ≤ entM.pTotal from by
    show gVal - 31 ≤ logSumExp (gVal - 31) (gVal - 2)
    have hg2 := gVal_bounds.2
    exact left_le_logSumExp (gVal - 31) (gVal - 2)
      (ne_of_lt (by linarith)) (ne_of_lt (by linarith)))]
  rfl

theorem search_M3_eval : search v3 M3 1 = [some entM] := by
  rw [search, M3, List.foldl_cons, iter1, List.foldl_cons, iter2, List.foldl_cons,
    iter3, List.foldl_cons, iter4, List.foldl_cons, iter5, List.foldl_cons, iter6]
  rfl

/-- C3 counterexample: for the matrix `M3`, which concentrates all mass
on the uncollapsed path `a, -, a, -, b, -` over the alphabet `{a, b, -}`,
the top-1 (first) result of `search` decodes to `"aab"`, not `"ab"`:
the CTC collapse of that path is `aab` (no adjacent repeats are merged
across the blanks), and the code agrees. -/
theorem C3_collapse_cex :
    search v3 M3 1 = [some entM] ∧
    entM.convertToStr v3 = "aab" ∧
    ("aab" : String) ≠ "ab" :=
  ⟨search_M3_eval, rfl, by decide⟩

/-- C3 as amended: for the concentrated matrix `M3` (blank at the final
index, `a` away from the hard-wired leading-space index 0), `search`
returns `"aab"` — the standard CTC collapse of `a, -, a, -, b, -` — as
its top-1 result. -/
theorem C3_collapse_top1 :
    search v3 M3 1 = [some entM] ∧ entM.convertToStr v3 = "aab" :=
  ⟨search_M3_eval, rfl⟩

end CTC
